import Mathlib

/-!
Shallow embedding of the core of `src/calculate.py`: date handling, the left
merge of consumption with temperature, the `groupby(['Year','DayOfYear'])`
aggregations, the pivot/mean baseline, the deviation matrices, the
stack + inner merge, and the threshold filter, together with the script's
assertion sequence.  Numbers are modelled as rationals; a pandas `NaN` cell
is modelled as `Option.none`.
-/

namespace Fluvius

/-! ## Calendar model (`Date.dt.year` / `Date.dt.dayofyear`) -/

/-- Gregorian leap-year rule, as used by pandas `dt.dayofyear`. -/
def isLeap (y : Int) : Bool := y % 4 == 0 && (y % 100 != 0 || y % 400 == 0)

/-- Length of month `m` (1-based) in a year whose leapness is `leap`. -/
def daysInMonth (leap : Bool) (m : Nat) : Nat :=
  match m with
  | 1 => 31
  | 2 => if leap then 29 else 28
  | 3 => 31
  | 4 => 30
  | 5 => 31
  | 6 => 30
  | 7 => 31
  | 8 => 31
  | 9 => 30
  | 10 => 31
  | 11 => 30
  | 12 => 31
  | _ => 0

/-- Total days in months `1..m`. -/
def cumDays (leap : Bool) : Nat → Nat
  | 0 => 0
  | m + 1 => cumDays leap m + daysInMonth leap (m + 1)

/-- 1-based day-of-year of day `d` of month `m` (Jan 1 ↦ 1). -/
def doyOf (leap : Bool) (m d : Nat) : Nat := cumDays leap (m - 1) + d

/-- A calendar date, year unrestricted, month/day 1-based. -/
structure Date where
  year : Int
  month : Nat
  day : Nat
deriving DecidableEq, Repr

/-- The date denotes an actual calendar day. -/
def Date.valid (dt : Date) : Prop :=
  1 ≤ dt.month ∧ dt.month ≤ 12 ∧ 1 ≤ dt.day ∧ dt.day ≤ daysInMonth (isLeap dt.year) dt.month

instance (dt : Date) : Decidable dt.valid := by
  unfold Date.valid; infer_instance

/-- `Date.dt.dayofyear`. -/
def Date.doy (dt : Date) : Nat := doyOf (isLeap dt.year) dt.month dt.day

/-! ## Records and the left merge (lines 142–143) -/

/-- A row of `elec_df` / `gas_df` after renaming: (`Date`, `Usage`). -/
structure DailyRec where
  date : Date
  usage : ℚ
deriving DecidableEq, Repr

/-- A row of `temp_df`: (`Date`, `Min_Temp_C`, `Max_Temp_C`, `Avg_Temp_C`). -/
structure TempRec where
  date : Date
  min_Temp_C : ℚ
  max_Temp_C : ℚ
  avg_Temp_C : ℚ
deriving DecidableEq, Repr

/-- The three temperature columns carried into a merged row. -/
structure TempFields where
  min_Temp_C : ℚ
  max_Temp_C : ℚ
  avg_Temp_C : ℚ
deriving DecidableEq, Repr

def TempRec.fields (t : TempRec) : TempFields :=
  ⟨t.min_Temp_C, t.max_Temp_C, t.avg_Temp_C⟩

/-- A row of `merged_elec` / `merged_gas`: usage always present, temperature
columns `NaN` (here `none`) when no temperature row matched the date. -/
structure AlignedRec where
  date : Date
  usage : ℚ
  temp : Option TempFields
deriving DecidableEq, Repr

/-- `pd.merge(df, temp_df, on='Date', how='left')`: every left row survives;
each matching right row produces one output row; no match gives `NaN`
temperature columns. -/
def mergeLeft (cons : List DailyRec) (temp : List TempRec) : List AlignedRec :=
  cons.flatMap (fun e =>
    match temp.filter (fun t => decide (t.date = e.date)) with
    | [] => [⟨e.date, e.usage, none⟩]
    | ms => ms.map (fun t => ⟨e.date, e.usage, some t.fields⟩))

/-! ## Group-by aggregation (lines 173–184 and 262) -/

/-- A `(Year, DayOfYear)` group key. -/
abbrev Key := Int × Nat

/-- The `Year` / `DayOfYear` columns added at lines 173–177. -/
def AlignedRec.key (r : AlignedRec) : Key := (r.date.year, r.date.doy)

/-- `groupby` key order: `Year` ascending, then `DayOfYear` ascending. -/
def keyLe (a b : Key) : Bool :=
  decide (a.1 < b.1 ∨ (a.1 = b.1 ∧ a.2 ≤ b.2))

/-- Pivot-stack cell order: `DayOfYear` ascending, then `Year` ascending. -/
def doyLe (a b : Key) : Bool :=
  decide (a.2 < b.2 ∨ (a.2 = b.2 ∧ a.1 ≤ b.1))

/-- Insert into a list assumed sorted by `le`. -/
def insertLe {α : Type} (le : α → α → Bool) (a : α) : List α → List α
  | [] => [a]
  | b :: l => if le a b then a :: b :: l else b :: insertLe le a l

/-- Insertion sort by the boolean order `le`. -/
def sortLe {α : Type} (le : α → α → Bool) : List α → List α
  | [] => []
  | a :: l => insertLe le a (sortLe le l)

/-- The distinct keys of a keyed table. -/
def keysOf {β : Type} (rows : List (Key × β)) : List Key :=
  (rows.map Prod.fst).dedup

/-- Sum of the values carried by key `k`. -/
def sumAt (rows : List (Key × ℚ)) (k : Key) : ℚ :=
  ((rows.filter (fun r => decide (r.1 = k))).map Prod.snd).sum

/-- `groupby(['Year','DayOfYear'])['Usage'].sum()` (lines 180, 183): one row
per distinct key, keys sorted, value the group sum. -/
def groupSum (rows : List (Key × ℚ)) : List (Key × ℚ) :=
  (sortLe keyLe (keysOf rows)).map (fun k => (k, sumAt rows k))

/-- `NaN`-skipping mean of the values carried by key `k`: `none` when the
group holds no present value. -/
def meanAt (rows : List (Key × Option ℚ)) (k : Key) : Option ℚ :=
  let vs := (rows.filter (fun r => decide (r.1 = k))).filterMap Prod.snd
  if vs.isEmpty then none else some (vs.sum / vs.length)

/-- `groupby(['Year','DayOfYear'])['Avg_Temp_C'].mean()` (line 262): one row
per distinct key, keys sorted, value the `NaN`-skipping group mean. -/
def groupMean (rows : List (Key × Option ℚ)) : List (Key × Option ℚ) :=
  (sortLe keyLe (keysOf rows)).map (fun k => (k, meanAt rows k))

/-- The keyed usage column of a merged table. -/
def usageRows (recs : List AlignedRec) : List (Key × ℚ) :=
  recs.map (fun r => (r.key, r.usage))

/-- The keyed `Avg_Temp_C` column of a merged table (absent when unmatched). -/
def tempRows (recs : List AlignedRec) : List (Key × Option ℚ) :=
  recs.map (fun r => (r.key, r.temp.map TempFields.avg_Temp_C))

/-- `daily_elec` / `daily_gas` built from a merged table (lines 180–184). -/
def daily_usage (recs : List AlignedRec) : List (Key × ℚ) :=
  groupSum (usageRows recs)

/-- `daily_temp` built from `merged_elec` (line 262). -/
def daily_temp_of (recs : List AlignedRec) : List (Key × Option ℚ) :=
  groupMean (tempRows recs)

/-! ## Pivot, baseline and deviation (lines 217–222, 245, 253, 277, 279) -/

/-- The pivot cell at key `k`: the aggregated value when the key is present,
`NaN` (`none`) otherwise. -/
def cell (m : List (Key × ℚ)) (k : Key) : Option ℚ :=
  (m.find? (fun r => decide (r.1 = k))).map Prod.snd

/-- Pivot cell of an optional-valued table (`daily_temp_pivot`). -/
def cellOpt (m : List (Key × Option ℚ)) (k : Key) : Option ℚ :=
  (m.find? (fun r => decide (r.1 = k))).bind Prod.snd

/-- `pivot(...).mean(axis=1)` at day-of-year `d` (lines 221–222): the
`NaN`-skipping mean across the years populated at `d`. -/
def baseline (m : List (Key × ℚ)) (d : Nat) : Option ℚ :=
  let vs := (m.filter (fun r => decide (r.1.2 = d))).map Prod.snd
  if vs.isEmpty then none else some (vs.sum / vs.length)

/-- `daily_temp_pivot.mean(axis=1)` at day-of-year `d` (line 277). -/
def baselineOpt (m : List (Key × Option ℚ)) (d : Nat) : Option ℚ :=
  let vs := (m.filter (fun r => decide (r.1.2 = d))).filterMap Prod.snd
  if vs.isEmpty then none else some (vs.sum / vs.length)

/-- `pivot.apply(lambda col: col - mean)` at cell `k` (lines 245, 253): the
raw cell minus that day-of-year's baseline; `NaN` propagates. -/
def devCell (m : List (Key × ℚ)) (k : Key) : Option ℚ :=
  match cell m k, baseline m k.2 with
  | some v, some b => some (v - b)
  | _, _ => none

/-- `daily_temp_pivot.apply(lambda col: col - std_temp_day)` at cell `k`
(line 279). -/
def devCellOpt (m : List (Key × Option ℚ)) (k : Key) : Option ℚ :=
  match cellOpt m k, baselineOpt m k.2 with
  | some v, some b => some (v - b)
  | _, _ => none

/-- The years with a populated pivot cell at day-of-year `d`. -/
def populatedYears (m : List (Key × ℚ)) (d : Nat) : List Int :=
  (m.filter (fun r => decide (r.1.2 = d))).map (fun r => r.1.1)

/-! ## Stack, inner merge and threshold filter (lines 282–305) -/

/-- A row of `dev_gas_stacked` / `temp_dev_stacked`: columns
(`DayOfYear`, `Year`, deviation). -/
structure DevRow where
  dayOfYear : Nat
  year : Int
  dev : ℚ
deriving DecidableEq, Repr

/-- `.stack().reset_index()` of a deviation pivot (lines 282, 285): cells
enumerated `DayOfYear`-major then `Year`, `NaN` cells dropped. -/
def stackDev (m : List (Key × ℚ)) : List DevRow :=
  (sortLe (fun r s => doyLe r.1 s.1) m).filterMap
    (fun r => (devCell m r.1).map (fun v => ⟨r.1.2, r.1.1, v⟩))

/-- `.stack().reset_index()` of the temperature deviation pivot (line 282). -/
def stackDevOpt (m : List (Key × Option ℚ)) : List DevRow :=
  (sortLe (fun r s => doyLe r.1 s.1) m).filterMap
    (fun r => (devCellOpt m r.1).map (fun v => ⟨r.1.2, r.1.1, v⟩))

/-- A row of `merged_dev_daily`: (`DayOfYear`, `Year`, `Gas_Dev`, `Temp_Dev`). -/
structure MergedRow where
  dayOfYear : Nat
  year : Int
  gasDev : ℚ
  tempDev : ℚ
deriving DecidableEq, Repr

/-- `pd.merge(dev_gas_stacked, temp_dev_stacked, on=['DayOfYear','Year'],
how='inner')` (line 289): left row order kept, each left row paired with its
matching right rows. -/
def mergeInner (gas temp : List DevRow) : List MergedRow :=
  gas.flatMap (fun g =>
    (temp.filter (fun t => decide (t.dayOfYear = g.dayOfYear ∧ t.year = g.year))).map
      (fun t => ⟨g.dayOfYear, g.year, g.dev, t.dev⟩))

/-- Line 301. -/
def HIGH_USAGE_THRESHOLD : ℚ := 2

/-- Line 302; declared next to the filter but not read by it. -/
def LOW_TEMP_THRESHOLD : ℚ := -1

/-- The line-304 filter, abstracted over the `LOW_TEMP_THRESHOLD` constant in
scope at that line: `merged_dev_daily[(Gas_Dev > HIGH_USAGE_THRESHOLD) &
(Temp_Dev > 0)]`.  The filter expression reads `HIGH_USAGE_THRESHOLD` and the
literal `0` only. -/
def highUsageWarmDaysWith (lowTemp : ℚ) (merged : List MergedRow) : List MergedRow :=
  merged.filter (fun r => decide (r.gasDev > HIGH_USAGE_THRESHOLD) && decide (r.tempDev > 0))

/-- `high_usage_warm_days` (line 304), with the declared constants in scope. -/
def high_usage_warm_days (merged : List MergedRow) : List MergedRow :=
  highUsageWarmDaysWith LOW_TEMP_THRESHOLD merged

/-! ## Correlation definedness and the script's assertion sequence -/

/-- The (`Usage`, `Avg_Temp_C`) pairs that `Series.corr` actually uses: rows
whose temperature is present. -/
def corrPairs (recs : List AlignedRec) : List (ℚ × ℚ) :=
  recs.filterMap (fun r => r.temp.map (fun t => (r.usage, t.avg_Temp_C)))

/-- `Series.corr` yields a number (not `NaN`) exactly when both scaled sums
of squares `n·Σx² − (Σx)²` and `n·Σy² − (Σy)²` are nonzero — i.e. at least
two valid pairs and nonzero variance on each side. -/
def corrDefined (ps : List (ℚ × ℚ)) : Bool :=
  let n : ℚ := ps.length
  let sx := (ps.map Prod.fst).sum
  let sy := (ps.map Prod.snd).sum
  let sxx := (ps.map (fun p => p.1 * p.1)).sum
  let syy := (ps.map (fun p => p.2 * p.2)).sum
  decide (n * sxx - sx * sx ≠ 0) && decide (n * syy - sy * sy ≠ 0)

/-- The failures the script can raise between the merge and the filter, in
script order (asserts at lines 200–201 and 205–206). -/
inductive CoreError where
  | emptyElec
  | emptyGas
  | elecCorrNaN
  | gasCorrNaN
deriving DecidableEq, Repr

/-- Everything the core computes after the assert block. -/
structure CoreOutput where
  daily_elec : List (Key × ℚ)
  daily_gas : List (Key × ℚ)
  daily_temp : List (Key × Option ℚ)
  dev_gas_stacked : List DevRow
  temp_dev_stacked : List DevRow
  merged_dev_daily : List MergedRow
  anomalies : List MergedRow
deriving DecidableEq, Repr

/-- Lines 142–305 of the script: left merges, the non-empty asserts
(lines 200–201), the correlation-is-not-`NaN` asserts (lines 205–206), then
aggregation, baselines, deviations, stacking, the inner merge and the
threshold filter. -/
def runCore (elec gas : List DailyRec) (temp : List TempRec) :
    Except CoreError CoreOutput :=
  let merged_elec := mergeLeft elec temp
  let merged_gas := mergeLeft gas temp
  if elec.isEmpty then .error .emptyElec
  else if gas.isEmpty then .error .emptyGas
  else if !corrDefined (corrPairs merged_elec) then .error .elecCorrNaN
  else if !corrDefined (corrPairs merged_gas) then .error .gasCorrNaN
  else
    let de := daily_usage merged_elec
    let dg := daily_usage merged_gas
    let dt := daily_temp_of merged_elec
    let gasStacked := stackDev dg
    let tempStacked := stackDevOpt dt
    let merged := mergeInner gasStacked tempStacked
    .ok ⟨de, dg, dt, gasStacked, tempStacked, merged, high_usage_warm_days merged⟩

/-! ## Toolkit: sorting, lookup and nodup lemmas -/

theorem insertLe_perm {α : Type} (le : α → α → Bool) (a : α) (l : List α) :
    (insertLe le a l).Perm (a :: l) := by
  induction l with
  | nil => simp [insertLe]
  | cons b l ih =>
    simp only [insertLe]
    split
    · exact List.Perm.refl _
    · exact (ih.cons b).trans (List.Perm.swap a b l)

theorem sortLe_perm {α : Type} (le : α → α → Bool) (l : List α) :
    (sortLe le l).Perm l := by
  induction l with
  | nil => simp [sortLe]
  | cons a l ih => exact (insertLe_perm le a (sortLe le l)).trans (ih.cons a)

theorem insertLe_pairwise {α : Type} {le : α → α → Bool}
    (htot : ∀ a b, le a b = true ∨ le b a = true)
    (htrans : ∀ a b c, le a b = true → le b c = true → le a c = true)
    (a : α) {l : List α} (h : l.Pairwise (fun x y => le x y = true)) :
    (insertLe le a l).Pairwise (fun x y => le x y = true) := by
  induction l with
  | nil => simp [insertLe]
  | cons b l ih =>
    rcases List.pairwise_cons.mp h with ⟨hb, hl⟩
    simp only [insertLe]
    split
    next hab =>
      refine List.pairwise_cons.mpr ⟨?_, h⟩
      intro x hx
      rcases List.mem_cons.mp hx with rfl | hx
      · exact hab
      · exact htrans a b x hab (hb x hx)
    next hab =>
      have hba : le b a = true := (htot a b).resolve_left hab
      refine List.pairwise_cons.mpr ⟨?_, ih hl⟩
      intro x hx
      have hx' : x ∈ a :: l := (insertLe_perm le a l).mem_iff.mp hx
      rcases List.mem_cons.mp hx' with rfl | hx'
      · exact hba
      · exact hb x hx'

theorem sortLe_pairwise {α : Type} {le : α → α → Bool}
    (htot : ∀ a b, le a b = true ∨ le b a = true)
    (htrans : ∀ a b c, le a b = true → le b c = true → le a c = true)
    (l : List α) :
    (sortLe le l).Pairwise (fun x y => le x y = true) := by
  induction l with
  | nil => exact List.Pairwise.nil
  | cons a l ih => exact insertLe_pairwise htot htrans a ih

theorem keyLe_total (a b : Key) : keyLe a b = true ∨ keyLe b a = true := by
  simp only [keyLe, decide_eq_true_eq]
  omega

theorem keyLe_trans (a b c : Key) :
    keyLe a b = true → keyLe b c = true → keyLe a c = true := by
  simp only [keyLe, decide_eq_true_eq]
  omega

theorem keyLe_antisymm (a b : Key) :
    keyLe a b = true → keyLe b a = true → a = b := by
  rcases a with ⟨a1, a2⟩
  rcases b with ⟨b1, b2⟩
  simp only [keyLe, decide_eq_true_eq, Prod.mk.injEq]
  omega

theorem doyLe_total (a b : Key) : doyLe a b = true ∨ doyLe b a = true := by
  simp only [doyLe, decide_eq_true_eq]
  omega

theorem doyLe_trans (a b c : Key) :
    doyLe a b = true → doyLe b c = true → doyLe a c = true := by
  simp only [doyLe, decide_eq_true_eq]
  omega

theorem find?_keyed_map {β : Type} (f : Key → β) (k : Key) (keys : List Key) :
    ((keys.map (fun j => (j, f j))).find? (fun r => decide (r.1 = k))) =
      if k ∈ keys then some (k, f k) else none := by
  induction keys with
  | nil => simp
  | cons j keys ih =>
    by_cases hjk : j = k
    · subst hjk
      simp [List.find?]
    · rw [List.map_cons, List.find?_cons_of_neg _ (by simpa using hjk), ih]
      by_cases hk : k ∈ keys
      · simp [List.mem_cons, hk]
      · simp [List.mem_cons, hk, Ne.symm hjk]

theorem filter_of_map {α β : Type} (f : α → β) (p : β → Bool) (l : List α) :
    (l.map f).filter p = (l.filter (fun a => p (f a))).map f := by
  induction l with
  | nil => rfl
  | cons a l ih =>
    by_cases h : p (f a) <;> simp [List.filter, h, ih]

/-- The keys of `groupSum rows` are the sorted distinct keys of `rows`. -/
theorem groupSum_keys (rows : List (Key × ℚ)) :
    (groupSum rows).map Prod.fst = sortLe keyLe (keysOf rows) := by
  unfold groupSum
  rw [List.map_map]
  exact List.map_id _

theorem mem_sortLe_keysOf {β : Type} (rows : List (Key × β)) (k : Key) :
    k ∈ sortLe keyLe (keysOf rows) ↔ k ∈ rows.map Prod.fst := by
  rw [(sortLe_perm keyLe (keysOf rows)).mem_iff]
  exact List.mem_dedup

theorem nodup_sortLe_keysOf {β : Type} (rows : List (Key × β)) :
    (sortLe keyLe (keysOf rows)).Nodup :=
  (sortLe_perm keyLe (keysOf rows)).nodup_iff.mpr (List.nodup_dedup _)

/-- Pivot-cell description of `groupSum`: present keys carry the group sum. -/
theorem cell_groupSum (rows : List (Key × ℚ)) (k : Key) :
    cell (groupSum rows) k =
      if k ∈ rows.map Prod.fst then some (sumAt rows k) else none := by
  unfold cell groupSum
  rw [find?_keyed_map]
  by_cases h : k ∈ rows.map Prod.fst
  · rw [if_pos ((mem_sortLe_keysOf rows k).mpr h), if_pos h]
    rfl
  · rw [if_neg (fun hh => h ((mem_sortLe_keysOf rows k).mp hh)), if_neg h]
    rfl

/-- Pivot-cell description of `groupMean`: present keys carry the group mean. -/
theorem cellOpt_groupMean (rows : List (Key × Option ℚ)) (k : Key) :
    cellOpt (groupMean rows) k =
      if k ∈ rows.map Prod.fst then meanAt rows k else none := by
  unfold cellOpt groupMean
  rw [find?_keyed_map]
  by_cases h : k ∈ rows.map Prod.fst
  · rw [if_pos ((mem_sortLe_keysOf rows k).mpr h), if_pos h]
    rfl
  · rw [if_neg (fun hh => h ((mem_sortLe_keysOf rows k).mp hh)), if_neg h]
    rfl

/-! ## Toolkit: day-of-year bounds and baseline characterization -/

theorem daysInMonth_le (leap : Bool) (m : Nat) : daysInMonth leap m ≤ 31 := by
  unfold daysInMonth
  split <;> first | omega | (split <;> omega)

theorem doy_le_365_of_nonleap :
    ∀ m : Fin 13, ∀ d : Fin 32,
      (d : Nat) ≤ daysInMonth false m → doyOf false m d ≤ 365 := by
  decide

theorem isLeap_of_doy_eq_366 (dt : Date) (hv : dt.valid) (h : dt.doy = 366) :
    isLeap dt.year = true := by
  rcases hv with ⟨hm1, hm, hd1, hd⟩
  by_cases hL : isLeap dt.year = true
  · exact hL
  · exfalso
    have hL' : isLeap dt.year = false := by
      simpa using hL
    rw [hL'] at hd
    have h31 : daysInMonth false dt.month ≤ 31 := daysInMonth_le false dt.month
    have hle : doyOf false dt.month dt.day ≤ 365 :=
      doy_le_365_of_nonleap ⟨dt.month, by omega⟩ ⟨dt.day, by omega⟩ hd
    rw [Date.doy, hL'] at h
    omega

/-- The populated pivot keys at day-of-year `d` after aggregation. -/
def keysAtDoy (rows : List (Key × ℚ)) (d : Nat) : List Key :=
  (sortLe keyLe (keysOf rows)).filter (fun k => decide (k.2 = d))

theorem mem_keysAtDoy (rows : List (Key × ℚ)) (d : Nat) (k : Key) :
    k ∈ keysAtDoy rows d ↔ k ∈ rows.map Prod.fst ∧ k.2 = d := by
  unfold keysAtDoy
  rw [List.mem_filter, mem_sortLe_keysOf]
  simp

theorem nodup_keysAtDoy (rows : List (Key × ℚ)) (d : Nat) :
    (keysAtDoy rows d).Nodup :=
  (nodup_sortLe_keysOf rows).filter _

theorem groupSum_filter_doy (rows : List (Key × ℚ)) (d : Nat) :
    (groupSum rows).filter (fun r => decide (r.1.2 = d)) =
      (keysAtDoy rows d).map (fun k => (k, sumAt rows k)) := by
  unfold groupSum keysAtDoy
  exact filter_of_map _ _ _

theorem populatedYears_groupSum (rows : List (Key × ℚ)) (d : Nat) :
    populatedYears (groupSum rows) d = (keysAtDoy rows d).map Prod.fst := by
  unfold populatedYears
  rw [groupSum_filter_doy, List.map_map]
  rfl

theorem baseline_groupSum_eq (rows : List (Key × ℚ)) (d : Nat) :
    baseline (groupSum rows) d =
      if keysAtDoy rows d = [] then none
      else some ((((keysAtDoy rows d).map (fun k => sumAt rows k)).sum) /
                 ((keysAtDoy rows d).length : ℚ)) := by
  unfold baseline
  rw [groupSum_filter_doy, List.map_map]
  by_cases h : keysAtDoy rows d = []
  · simp [h]
  · rw [if_neg h]
    have hne : ((keysAtDoy rows d).map
        (Prod.snd ∘ fun k => (k, sumAt rows k))).isEmpty = false := by
      cases hk : keysAtDoy rows d with
      | nil => exact absurd hk h
      | cons a l => simp
    simp only [hne, Bool.false_eq_true, if_false, List.length_map]
    rfl

/-! ## Claim theorems -/

/-- C1: for every day-of-year `d`, the baseline at `d` is the arithmetic mean
of the day-of-year matrix cells `[y, d]` over exactly the years `y` whose cell
at `d` is populated (absent cells do not count toward the denominator); a
day-of-year with zero populated years has no baseline at all; and every year
populated at day-of-year 366 is a leap year, so the 366 baseline averages over
leap years only. -/
theorem c1_baseline_mean_over_populated_years
    (recs : List AlignedRec) (d : Nat) (hv : ∀ r ∈ recs, r.date.valid) :
    (baseline (daily_usage recs) d = none ↔
        ∀ y : Int, cell (daily_usage recs) (y, d) = none) ∧
    (∀ v : ℚ, baseline (daily_usage recs) d = some v →
        (populatedYears (daily_usage recs) d).Nodup ∧
        (∀ y : Int, y ∈ populatedYears (daily_usage recs) d ↔
            cell (daily_usage recs) (y, d) ≠ none) ∧
        1 ≤ (populatedYears (daily_usage recs) d).length ∧
        v = ((populatedYears (daily_usage recs) d).map
              (fun y => (cell (daily_usage recs) (y, d)).getD 0)).sum /
            ((populatedYears (daily_usage recs) d).length : ℚ)) ∧
    (∀ y : Int, cell (daily_usage recs) (y, 366) ≠ none → isLeap y = true) := by
  set rows := usageRows recs with hrows
  have hdud : daily_usage recs = groupSum rows := rfl
  have hcellmem : ∀ (y : Int) (e : Nat),
      cell (daily_usage recs) (y, e) ≠ none ↔ ((y, e) : Key) ∈ rows.map Prod.fst := by
    intro y e
    rw [hdud, cell_groupSum]
    by_cases h : ((y, e) : Key) ∈ rows.map Prod.fst
    · simp [h]
    · simp [h]
  have hkmem : ∀ (y : Int) (e : Nat),
      ((y, e) : Key) ∈ keysAtDoy rows e ↔ ((y, e) : Key) ∈ rows.map Prod.fst := by
    intro y e
    rw [mem_keysAtDoy]
    simp
  have hpy : populatedYears (daily_usage recs) d = (keysAtDoy rows d).map Prod.fst := by
    rw [hdud]
    exact populatedYears_groupSum rows d
  have hmemPY : ∀ y : Int,
      y ∈ populatedYears (daily_usage recs) d ↔ ((y, d) : Key) ∈ keysAtDoy rows d := by
    intro y
    rw [hpy, List.mem_map]
    constructor
    · rintro ⟨k, hk, rfl⟩
      have hk2 : k.2 = d := ((mem_keysAtDoy rows d k).mp hk).2
      have hke : ((k.1, d) : Key) = k := by
        rw [← hk2]
      rwa [hke]
    · intro h
      exact ⟨(y, d), h, rfl⟩
  refine ⟨?_, ?_, ?_⟩
  · rw [hdud, baseline_groupSum_eq]
    constructor
    · intro hnone y
      by_contra hc
      have hmem : ((y, d) : Key) ∈ keysAtDoy rows d := (hkmem y d).mpr ((hcellmem y d).mp hc)
      rcases hk : keysAtDoy rows d with _ | ⟨a, l⟩
      · rw [hk] at hmem
        exact absurd hmem (List.not_mem_nil _)
      · rw [hk] at hnone
        simp at hnone
    · intro hall
      have hnil : keysAtDoy rows d = [] := by
        by_contra hne
        rcases List.exists_mem_of_ne_nil _ hne with ⟨k, hk⟩
        have hk2 : k.2 = d := ((mem_keysAtDoy rows d k).mp hk).2
        have hkmem' : ((k.1, d) : Key) ∈ keysAtDoy rows d := by
          have hke : ((k.1, d) : Key) = k := by
            rw [← hk2]
          rwa [hke]
        have hne' := (hcellmem k.1 d).mpr ((hkmem k.1 d).mp hkmem')
        exact hne' (hall k.1)
      simp [hnil]
  · intro v hsome
    have hkne : keysAtDoy rows d ≠ [] := by
      intro hk
      rw [hdud, baseline_groupSum_eq, if_pos hk] at hsome
      exact Option.noConfusion hsome
    refine ⟨?_, ?_, ?_, ?_⟩
    · rw [hpy]
      refine List.Nodup.map_on ?_ (nodup_keysAtDoy rows d)
      intro a ha b hb hab
      have ha2 : a.2 = d := ((mem_keysAtDoy rows d a).mp ha).2
      have hb2 : b.2 = d := ((mem_keysAtDoy rows d b).mp hb).2
      exact Prod.ext_iff.mpr ⟨hab, by rw [ha2, hb2]⟩
    · exact fun y => (hmemPY y).trans ((hkmem y d).trans (hcellmem y d).symm)
    · rw [hpy, List.length_map]
      rcases hk : keysAtDoy rows d with _ | ⟨a, l⟩
      · exact absurd hk hkne
      · simp
    · rw [hdud, baseline_groupSum_eq, if_neg hkne] at hsome
      have hmapeq : (populatedYears (daily_usage recs) d).map
            (fun y => (cell (daily_usage recs) (y, d)).getD 0) =
          (keysAtDoy rows d).map (fun k => sumAt rows k) := by
        rw [hpy, List.map_map]
        refine List.map_congr_left ?_
        intro k hk
        have hk2 : k.2 = d := ((mem_keysAtDoy rows d k).mp hk).2
        have hke : ((k.1, d) : Key) = k := by
          rw [← hk2]
        have hcellk : cell (daily_usage recs) (k.1, d) = some (sumAt rows k) := by
          rw [hdud, cell_groupSum, hke, if_pos ((mem_keysAtDoy rows d k).mp hk).1]
        simp [Function.comp, hcellk]
      have hlen : ((populatedYears (daily_usage recs) d).length : ℚ) =
          ((keysAtDoy rows d).length : ℚ) := by
        rw [hpy, List.length_map]
      rw [hmapeq, hlen]
      exact (Option.some.inj hsome).symm
  · intro y hc
    have hmem : ((y, 366) : Key) ∈ rows.map Prod.fst := (hcellmem y 366).mp hc
    rcases List.mem_map.mp hmem with ⟨r, hrrows, hfst⟩
    have hr2 : r ∈ recs.map (fun a => (a.key, a.usage)) := hrrows
    rcases List.mem_map.mp hr2 with ⟨rec, hrec, hre⟩
    have hkey : rec.key = (y, 366) := by
      rw [← hfst, ← hre]
    have hkey' : rec.date.year = y ∧ rec.date.doy = 366 := by
      simpa [AlignedRec.key, Prod.ext_iff] using hkey
    have hL := isLeap_of_doy_eq_366 rec.date (hv rec hrec) hkey'.2
    rwa [hkey'.1] at hL

/-- C2: a populated deviation cell equals the raw cell minus that
day-of-year's baseline, within tolerance `1e-9`; a cell whose raw value or
whose baseline is absent is absent in the deviation matrix, never defaulted to
zero — for the usage pivots and the temperature pivot alike. -/
theorem c2_deviation_raw_minus_baseline
    (m : List (Key × ℚ)) (mt : List (Key × Option ℚ)) (k : Key) :
    (∀ v b : ℚ, cell m k = some v → baseline m k.2 = some b →
        ∃ w : ℚ, devCell m k = some w ∧ |w - (v - b)| ≤ 1 / 1000000000) ∧
    ((cell m k = none ∨ baseline m k.2 = none) → devCell m k = none) ∧
    (∀ v b : ℚ, cellOpt mt k = some v → baselineOpt mt k.2 = some b →
        ∃ w : ℚ, devCellOpt mt k = some w ∧ |w - (v - b)| ≤ 1 / 1000000000) ∧
    ((cellOpt mt k = none ∨ baselineOpt mt k.2 = none) → devCellOpt mt k = none) := by
  refine ⟨?_, ?_, ?_, ?_⟩
  · intro v b hcv hbv
    refine ⟨v - b, ?_, ?_⟩
    · unfold devCell
      rw [hcv, hbv]
    · simp
  · rintro (h | h)
    · cases hb : baseline m k.2 <;> simp [devCell, h, hb]
    · cases hc : cell m k <;> simp [devCell, h, hc]
  · intro v b hcv hbv
    refine ⟨v - b, ?_, ?_⟩
    · unfold devCellOpt
      rw [hcv, hbv]
    · simp
  · rintro (h | h)
    · cases hb : baselineOpt mt k.2 <;> simp [devCellOpt, h, hb]
    · cases hc : cellOpt mt k <;> simp [devCellOpt, h, hc]

/-- Two one-day records in different years: day-1 baseline (5 + 3) / 2 = 4. -/
def wRecs : List AlignedRec :=
  [⟨⟨2024, 1, 1⟩, 5, none⟩, ⟨⟨2023, 1, 1⟩, 3, none⟩]

/-- Witness for C1 at a concrete two-year input whose day-1 baseline is 4. -/
theorem c1_witness :
    (populatedYears (daily_usage wRecs) 1).Nodup ∧
    (∀ y : Int, y ∈ populatedYears (daily_usage wRecs) 1 ↔
        cell (daily_usage wRecs) (y, 1) ≠ none) ∧
    1 ≤ (populatedYears (daily_usage wRecs) 1).length ∧
    (4 : ℚ) = ((populatedYears (daily_usage wRecs) 1).map
          (fun y => (cell (daily_usage wRecs) (y, 1)).getD 0)).sum /
        ((populatedYears (daily_usage wRecs) 1).length : ℚ) :=
  (c1_baseline_mean_over_populated_years wRecs 1 (by decide)).2.1 4
    (by with_unfolding_all rfl)

/-- Witness for C2: an absent raw cell yields an absent deviation cell. -/
theorem c2_witness : devCell [] (2024, 1) = none :=
  (c2_deviation_raw_minus_baseline [] [] (2024, 1)).2.1 (Or.inl rfl)

/-- C10: the applied anomaly filter tests `Temp_Dev > 0` and never reads
`LOW_TEMP_THRESHOLD`: the flagged rows are invariant under any value of that
constant, and membership is exactly the two strict tests. -/
theorem c10_low_temp_threshold_unused (t : ℚ) (merged : List MergedRow) :
    highUsageWarmDaysWith t merged = high_usage_warm_days merged ∧
    (∀ r : MergedRow, r ∈ high_usage_warm_days merged ↔
        r ∈ merged ∧ r.gasDev > HIGH_USAGE_THRESHOLD ∧ r.tempDev > 0) := by
  refine ⟨rfl, ?_⟩
  intro r
  unfold high_usage_warm_days highUsageWarmDaysWith
  rw [List.mem_filter]
  simp

/-- The spec §8 example row: day 10 of 2024, usage deviation 3, temperature
deviation 1.5. -/
def wRow : MergedRow := ⟨10, 2024, 3, 3 / 2⟩

/-- Witness for C10: the example row passes the filter. -/
theorem c10_witness : wRow ∈ high_usage_warm_days [wRow] :=
  ((c10_low_temp_threshold_unused 5 [wRow]).2 wRow).mpr
    ⟨List.mem_singleton_self _,
     by norm_num [wRow, HIGH_USAGE_THRESHOLD],
     by norm_num [wRow]⟩

/-- C9: an empty electricity or gas series is fatal before any baseline is
produced: the run stops at the non-empty assertions (lines 200–201). -/
theorem c9_empty_consumption_fatal (elec gas : List DailyRec) (temp : List TempRec) :
    (elec = [] → runCore elec gas temp = .error .emptyElec) ∧
    (elec ≠ [] → gas = [] → runCore elec gas temp = .error .emptyGas) := by
  constructor
  · rintro rfl
    rfl
  · intro he hg
    subst hg
    have h1 : elec.isEmpty = false := by
      cases elec with
      | nil => exact absurd rfl he
      | cons a l => rfl
    simp [runCore, h1]

/-- Witness for C9 at concrete empty input. -/
theorem c9_witness : runCore [] [] [] = .error .emptyElec :=
  (c9_empty_consumption_fatal [] [] []).1 rfl

/-- A concrete two-day electricity series. -/
def cexElec : List DailyRec := [⟨⟨2024, 1, 1⟩, 5⟩, ⟨⟨2024, 1, 2⟩, 7⟩]

/-- A concrete two-day gas series. -/
def cexGas : List DailyRec := [⟨⟨2024, 1, 1⟩, 3⟩, ⟨⟨2024, 1, 2⟩, 4⟩]

/-- C5 counterexample: with both consumption series non-empty and the
temperature provider returning zero rows, the run does not complete — it
aborts at the electricity correlation `NaN` assertion (line 205). -/
theorem c5_counterexample :
    cexElec ≠ [] ∧ cexGas ≠ [] ∧
      runCore cexElec cexGas [] = .error .elecCorrNaN :=
  ⟨List.cons_ne_nil _ _, List.cons_ne_nil _ _, by with_unfolding_all rfl⟩

/-- C5 amended: with zero temperature rows, absence does propagate through the
left join — every aligned record carries absent temperature fields — but the
run is aborted by the correlation `NaN` assertion rather than completing. -/
theorem c5_empty_temperature_aborts (elec gas : List DailyRec) :
    (∀ r ∈ mergeLeft elec [], r.temp = none) ∧
    (elec ≠ [] → gas ≠ [] → runCore elec gas [] = .error .elecCorrNaN) := by
  have hjoin : ∀ cons : List DailyRec, ∀ r ∈ mergeLeft cons ([] : List TempRec),
      r.temp = none := by
    intro cons r hr
    rw [show mergeLeft cons [] = cons.flatMap (fun e => [⟨e.date, e.usage, none⟩])
      from rfl] at hr
    rcases List.mem_flatMap.mp hr with ⟨e, he, hre⟩
    cases List.mem_singleton.mp hre
    rfl
  constructor
  · exact hjoin elec
  · intro he hg
    have h1 : elec.isEmpty = false := by
      cases elec with
      | nil => exact absurd rfl he
      | cons a l => rfl
    have h2 : gas.isEmpty = false := by
      cases gas with
      | nil => exact absurd rfl hg
      | cons a l => rfl
    have hpairs : corrPairs (mergeLeft elec []) = [] := by
      unfold corrPairs
      rw [List.filterMap_eq_nil_iff]
      intro r hr
      rw [hjoin elec r hr]
      rfl
    have hcd : corrDefined (corrPairs (mergeLeft elec [])) = false := by
      rw [hpairs]
      with_unfolding_all rfl
    simp [runCore, h1, h2, hcd]

/-- Witness for the amended C5 theorem at concrete non-empty series. -/
theorem c5_witness : runCore cexElec cexGas [] = .error .elecCorrNaN :=
  (c5_empty_temperature_aborts cexElec cexGas).2
    (List.cons_ne_nil _ _) (List.cons_ne_nil _ _)

/-! ## Toolkit: stack and inner-merge membership -/

theorem mem_stackDev (m : List (Key × ℚ)) (d : Nat) (y : Int) (v : ℚ) :
    (⟨d, y, v⟩ : DevRow) ∈ stackDev m ↔ devCell m (y, d) = some v := by
  unfold stackDev
  rw [List.mem_filterMap]
  constructor
  · rintro ⟨r, hr, hmap⟩
    rcases hdev : devCell m r.1 with _ | w
    · rw [hdev] at hmap
      exact Option.noConfusion hmap
    · rw [hdev] at hmap
      have heq := Option.some.inj hmap
      rw [DevRow.mk.injEq] at heq
      obtain ⟨h1, h2, h3⟩ := heq
      subst h1
      subst h2
      subst h3
      rwa [Prod.mk.eta]
  · intro h
    have hcell : ∃ r ∈ m, r.1 = ((y, d) : Key) := by
      rcases hc : cell m (y, d) with _ | v0
      · unfold devCell at h
        rw [hc] at h
        exact Option.noConfusion h
      · unfold cell at hc
        rcases hfind : m.find? (fun r => decide (r.1 = ((y, d) : Key))) with _ | r
        · rw [hfind] at hc
          exact Option.noConfusion hc
        · refine ⟨r, List.mem_of_find?_eq_some hfind, ?_⟩
          simpa using List.find?_some hfind
    rcases hcell with ⟨r, hrm, hr1⟩
    refine ⟨r, (sortLe_perm _ m).mem_iff.mpr hrm, ?_⟩
    rw [hr1, h]
    rfl

theorem mem_stackDevOpt (m : List (Key × Option ℚ)) (d : Nat) (y : Int) (v : ℚ) :
    (⟨d, y, v⟩ : DevRow) ∈ stackDevOpt m ↔ devCellOpt m (y, d) = some v := by
  unfold stackDevOpt
  rw [List.mem_filterMap]
  constructor
  · rintro ⟨r, hr, hmap⟩
    rcases hdev : devCellOpt m r.1 with _ | w
    · rw [hdev] at hmap
      exact Option.noConfusion hmap
    · rw [hdev] at hmap
      have heq := Option.some.inj hmap
      rw [DevRow.mk.injEq] at heq
      obtain ⟨h1, h2, h3⟩ := heq
      subst h1
      subst h2
      subst h3
      rwa [Prod.mk.eta]
  · intro h
    have hcell : ∃ r ∈ m, r.1 = ((y, d) : Key) := by
      rcases hc : cellOpt m (y, d) with _ | v0
      · unfold devCellOpt at h
        rw [hc] at h
        exact Option.noConfusion h
      · unfold cellOpt at hc
        rcases hfind : m.find? (fun r => decide (r.1 = ((y, d) : Key))) with _ | r
        · rw [hfind] at hc
          exact Option.noConfusion hc
        · refine ⟨r, List.mem_of_find?_eq_some hfind, ?_⟩
          simpa using List.find?_some hfind
    rcases hcell with ⟨r, hrm, hr1⟩
    refine ⟨r, (sortLe_perm _ m).mem_iff.mpr hrm, ?_⟩
    rw [hr1, h]
    rfl

theorem mem_mergeInner (gas temp : List DevRow) (q : MergedRow) :
    q ∈ mergeInner gas temp ↔
      (⟨q.dayOfYear, q.year, q.gasDev⟩ : DevRow) ∈ gas ∧
      (⟨q.dayOfYear, q.year, q.tempDev⟩ : DevRow) ∈ temp := by
  unfold mergeInner
  rw [List.mem_flatMap]
  constructor
  · rintro ⟨g, hg, hq⟩
    rcases List.mem_map.mp hq with ⟨t, ht, rfl⟩
    obtain ⟨ht', hcond⟩ := List.mem_filter.mp ht
    rw [decide_eq_true_eq] at hcond
    constructor
    · exact hg
    · rw [show (⟨g.dayOfYear, g.year, g.dev, t.dev⟩ : MergedRow).dayOfYear
          = g.dayOfYear from rfl,
        show (⟨g.dayOfYear, g.year, g.dev, t.dev⟩ : MergedRow).year = g.year from rfl,
        ← hcond.1, ← hcond.2]
      exact ht'
  · rintro ⟨hg, ht⟩
    refine ⟨⟨q.dayOfYear, q.year, q.gasDev⟩, hg, ?_⟩
    rw [List.mem_map]
    refine ⟨⟨q.dayOfYear, q.year, q.tempDev⟩, ?_, rfl⟩
    rw [List.mem_filter]
    exact ⟨ht, by simp⟩

/-- C3: the detector emits a row exactly when both deviation matrices have a
populated cell at its (year, day-of-year) key — an inner join, no partial
rows — and both strict directional tests hold; when no key qualifies the
result is the empty list, not an error. -/
theorem c3_detector_inner_join_and_thresholds
    (gasM : List (Key × ℚ)) (tempM : List (Key × Option ℚ)) :
    (∀ q : MergedRow,
        q ∈ high_usage_warm_days (mergeInner (stackDev gasM) (stackDevOpt tempM)) ↔
          devCell gasM (q.year, q.dayOfYear) = some q.gasDev ∧
          devCellOpt tempM (q.year, q.dayOfYear) = some q.tempDev ∧
          q.gasDev > HIGH_USAGE_THRESHOLD ∧ q.tempDev > 0) ∧
    ((∀ (y : Int) (d : Nat) (a b : ℚ),
        devCell gasM (y, d) = some a → devCellOpt tempM (y, d) = some b →
          ¬(a > HIGH_USAGE_THRESHOLD ∧ b > 0)) →
      high_usage_warm_days (mergeInner (stackDev gasM) (stackDevOpt tempM)) = []) := by
  have hmem : ∀ q : MergedRow,
      q ∈ high_usage_warm_days (mergeInner (stackDev gasM) (stackDevOpt tempM)) ↔
        devCell gasM (q.year, q.dayOfYear) = some q.gasDev ∧
        devCellOpt tempM (q.year, q.dayOfYear) = some q.tempDev ∧
        q.gasDev > HIGH_USAGE_THRESHOLD ∧ q.tempDev > 0 := by
    intro q
    unfold high_usage_warm_days highUsageWarmDaysWith
    rw [List.mem_filter, mem_mergeInner, mem_stackDev, mem_stackDevOpt]
    simp [and_assoc]
  refine ⟨hmem, ?_⟩
  intro hnone
  rw [List.eq_nil_iff_forall_not_mem]
  intro q hq
  obtain ⟨h1, h2, h3, h4⟩ := (hmem q).mp hq
  exact hnone q.year q.dayOfYear q.gasDev q.tempDev h1 h2 ⟨h3, h4⟩

/-- Witness for C3: with empty deviation matrices nothing qualifies and the
detector returns the empty list. -/
theorem c3_witness :
    high_usage_warm_days (mergeInner (stackDev []) (stackDevOpt [])) = [] :=
  (c3_detector_inner_join_and_thresholds [] []).2
    (fun _ d a _ ha _ => by
      rw [show devCell [] (_, d) = none from rfl] at ha
      exact Option.noConfusion ha)

/-- C4 counterexample: two same-day temperature entries 4 and 6 aggregate to
their mean 5, not to their sum 10 — the temperature aggregation does not sum. -/
theorem c4_counterexample :
    cellOpt (groupMean [((2024, 1), some 4), ((2024, 1), some 6)]) (2024, 1) = some 5 ∧
    ((4 : ℚ) + 6 = 10) ∧ ((5 : ℚ) ≠ 10) :=
  ⟨by with_unfolding_all rfl, by norm_num, by norm_num⟩

/-- C4 amended: grouping is by (year, day-of-year) for both quantities, but
only usage is combined by summation; the temperature aggregation (line 262)
combines same-key entries by the mean of the present values. -/
theorem c4_usage_sums_temperature_means
    (rows : List (Key × ℚ)) (trows : List (Key × Option ℚ)) (k : Key) :
    (cell (groupSum rows) k =
        if k ∈ rows.map Prod.fst
        then some (((rows.filter (fun r => decide (r.1 = k))).map Prod.snd).sum)
        else none) ∧
    (cellOpt (groupMean trows) k =
        if k ∈ trows.map Prod.fst
        then (if ((trows.filter (fun r => decide (r.1 = k))).filterMap Prod.snd).isEmpty
              then none
              else some (((trows.filter (fun r => decide (r.1 = k))).filterMap Prod.snd).sum /
                (((trows.filter (fun r => decide (r.1 = k))).filterMap Prod.snd).length : ℚ)))
        else none) :=
  ⟨cell_groupSum rows k, cellOpt_groupMean trows k⟩

/-! ## Toolkit: pairwise order of the stacked and merged output -/

theorem pairwise_and {α : Type} {R S : α → α → Prop} {l : List α}
    (hR : l.Pairwise R) (hS : l.Pairwise S) :
    l.Pairwise (fun a b => R a b ∧ S a b) := by
  induction l with
  | nil => exact List.Pairwise.nil
  | cons a l ih =>
    rcases List.pairwise_cons.mp hR with ⟨hRa, hRl⟩
    rcases List.pairwise_cons.mp hS with ⟨hSa, hSl⟩
    exact List.pairwise_cons.mpr ⟨fun x hx => ⟨hRa x hx, hSa x hx⟩, ih hRl hSl⟩

theorem pairwise_filterMap_of {α β : Type} {R : α → α → Prop} {S : β → β → Prop}
    (f : α → Option β) {l : List α} (h : l.Pairwise R)
    (hf : ∀ a b, R a b → ∀ x, f a = some x → ∀ y, f b = some y → S x y) :
    (l.filterMap f).Pairwise S := by
  induction l with
  | nil => exact List.Pairwise.nil
  | cons a l ih =>
    rcases List.pairwise_cons.mp h with ⟨ha, hl⟩
    rcases hfa : f a with _ | x
    · rw [List.filterMap_cons, hfa]
      exact ih hl
    · rw [List.filterMap_cons, hfa]
      refine List.pairwise_cons.mpr ⟨?_, ih hl⟩
      intro y hy
      rcases List.mem_filterMap.mp hy with ⟨b, hb, hfb⟩
      exact hf a b (ha b hb) x hfa y hfb

theorem pairwise_flatMap_of {α β : Type} {R : α → α → Prop} {S : β → β → Prop}
    (f : α → List β) {l : List α} (h : l.Pairwise R)
    (hone : ∀ a, (f a).Pairwise S)
    (hf : ∀ a b, R a b → ∀ x ∈ f a, ∀ y ∈ f b, S x y) :
    (l.flatMap f).Pairwise S := by
  induction l with
  | nil => exact List.Pairwise.nil
  | cons a l ih =>
    rcases List.pairwise_cons.mp h with ⟨ha, hl⟩
    rw [List.flatMap_cons, List.pairwise_append]
    refine ⟨hone a, ih hl, ?_⟩
    intro x hx y hy
    rcases List.mem_flatMap.mp hy with ⟨b, hb, hyb⟩
    exact hf a b (ha b hb) x hx y hyb

theorem pairwise_of_length_le_one {α : Type} {S : α → α → Prop} {l : List α}
    (h : l.length ≤ 1) : l.Pairwise S := by
  rcases l with _ | ⟨a, _ | ⟨b, l⟩⟩
  · exact List.Pairwise.nil
  · exact List.pairwise_singleton S a
  · simp at h

theorem length_filter_le_one_of_nodup_map {α β : Type} (f : α → β) (l : List α)
    (h : (l.map f).Nodup) (p : α → Bool) (c : β)
    (hp : ∀ x, p x = true → f x = c) :
    (l.filter p).length ≤ 1 := by
  induction l with
  | nil => simp
  | cons a l ih =>
    rw [List.map_cons, List.nodup_cons] at h
    obtain ⟨hfa, hl⟩ := h
    by_cases hpa : p a = true
    · rw [List.filter_cons_of_pos hpa]
      have hnil : l.filter p = [] := by
        rcases hfil : l.filter p with _ | ⟨b, bs⟩
        · rfl
        · exfalso
          have hbmem : b ∈ l.filter p := by
            rw [hfil]
            exact List.mem_cons_self _ _
          obtain ⟨hbl, hpb⟩ := List.mem_filter.mp hbmem
          apply hfa
          have hfb : f b ∈ l.map f := List.mem_map_of_mem f hbl
          rwa [hp b hpb, ← hp a hpa] at hfb
      rw [hnil]
      simp
    · rw [List.filter_cons_of_neg (by simpa using hpa)]
      exact ih hl

theorem doyLe_ne_strict (a b : Key) (h1 : doyLe a b = true) (h2 : a ≠ b) :
    a.2 < b.2 ∨ (a.2 = b.2 ∧ a.1 < b.1) := by
  rcases a with ⟨a1, a2⟩
  rcases b with ⟨b1, b2⟩
  simp only [doyLe, decide_eq_true_eq] at h1
  simp only [ne_eq, Prod.mk.injEq, not_and] at h2
  by_cases he : a1 = b1
  · rcases h1 with h1 | h1
    · exact Or.inl h1
    · exact absurd h1.1 (h2 he)
  · rcases h1 with h1 | h1
    · exact Or.inl h1
    · exact Or.inr ⟨h1.1, lt_of_le_of_ne h1.2 he⟩

/-- The strict output order: `DayOfYear` ascending, ties by `Year` ascending. -/
def devRowLt (x y : DevRow) : Prop :=
  x.dayOfYear < y.dayOfYear ∨ (x.dayOfYear = y.dayOfYear ∧ x.year < y.year)

/-- Any stacked pivot with distinct keys is strictly sorted by
(`DayOfYear`, `Year`). -/
theorem stack_pairwise {β : Type} (m : List (Key × β)) (g : Key → Option ℚ)
    (hnd : (m.map Prod.fst).Nodup) :
    ((sortLe (fun r s => doyLe r.1 s.1) m).filterMap
        (fun r => (g r.1).map (fun v => (⟨r.1.2, r.1.1, v⟩ : DevRow)))).Pairwise
      devRowLt := by
  have hperm := sortLe_perm (fun r s : Key × β => doyLe r.1 s.1) m
  have hpleq : (sortLe (fun r s : Key × β => doyLe r.1 s.1) m).Pairwise
      (fun r s => doyLe r.1 s.1 = true) :=
    sortLe_pairwise (fun a b => doyLe_total a.1 b.1)
      (fun a b c => doyLe_trans a.1 b.1 c.1) m
  have hpnd : ((sortLe (fun r s : Key × β => doyLe r.1 s.1) m).map Prod.fst).Nodup :=
    (hperm.map Prod.fst).nodup_iff.mpr hnd
  have hpne : (sortLe (fun r s : Key × β => doyLe r.1 s.1) m).Pairwise
      (fun r s => r.1 ≠ s.1) := by
    rw [List.Nodup, List.pairwise_map] at hpnd
    exact hpnd
  refine pairwise_filterMap_of _ (pairwise_and hpleq hpne) ?_
  intro a b hab x hx y hy
  rcases hga : g a.1 with _ | v
  · rw [hga] at hx
    exact Option.noConfusion hx
  · rcases hgb : g b.1 with _ | w
    · rw [hgb] at hy
      exact Option.noConfusion hy
    · rw [hga] at hx
      rw [hgb] at hy
      have hx' := Option.some.inj hx
      have hy' := Option.some.inj hy
      rw [← hx', ← hy']
      exact doyLe_ne_strict a.1 b.1 hab.1 hab.2

theorem devRowLt_keys_ne (x y : DevRow) (h : devRowLt x y) :
    (x.dayOfYear, x.year) ≠ (y.dayOfYear, y.year) := by
  rcases h with h | ⟨h1, h2⟩ <;> intro he <;> rw [Prod.mk.injEq] at he <;> omega

theorem groupMean_keys (rows : List (Key × Option ℚ)) :
    (groupMean rows).map Prod.fst = sortLe keyLe (keysOf rows) := by
  unfold groupMean
  rw [List.map_map]
  exact List.map_id _

theorem mergeInner_pairwise (gas temp : List DevRow)
    (hg : gas.Pairwise devRowLt)
    (ht : (temp.map (fun t => (t.dayOfYear, t.year))).Nodup) :
    (mergeInner gas temp).Pairwise
      (fun q r : MergedRow =>
        q.dayOfYear < r.dayOfYear ∨ (q.dayOfYear = r.dayOfYear ∧ q.year < r.year)) := by
  unfold mergeInner
  refine pairwise_flatMap_of _ hg ?_ ?_
  · intro g
    refine pairwise_of_length_le_one ?_
    rw [List.length_map]
    refine length_filter_le_one_of_nodup_map _ temp ht _ (g.dayOfYear, g.year) ?_
    intro t hpt
    rw [decide_eq_true_eq] at hpt
    rw [Prod.mk.injEq]
    exact hpt
  · intro a b hab x hx y hy
    rcases List.mem_map.mp hx with ⟨t1, ht1, rfl⟩
    rcases List.mem_map.mp hy with ⟨t2, ht2, rfl⟩
    exact hab

/-- C6 amended: the sequence of anomaly rows is strictly ordered by
day-of-year ascending, then year ascending — the stack/merge key order — with
no duplicate (year, day-of-year) keys; it is not ordered year-major as
claimed (see the counterexample). -/
theorem c6_output_sorted_doy_major
    (gasRows : List (Key × ℚ)) (tempRows : List (Key × Option ℚ)) :
    (high_usage_warm_days (mergeInner (stackDev (groupSum gasRows))
        (stackDevOpt (groupMean tempRows)))).Pairwise
      (fun q r : MergedRow =>
        q.dayOfYear < r.dayOfYear ∨ (q.dayOfYear = r.dayOfYear ∧ q.year < r.year)) := by
  have hgnd : ((groupSum gasRows).map Prod.fst).Nodup := by
    rw [groupSum_keys]
    exact nodup_sortLe_keysOf gasRows
  have htnd : ((groupMean tempRows).map Prod.fst).Nodup := by
    rw [groupMean_keys]
    exact nodup_sortLe_keysOf tempRows
  have hgas : (stackDev (groupSum gasRows)).Pairwise devRowLt :=
    stack_pairwise (groupSum gasRows) (devCell (groupSum gasRows)) hgnd
  have htemp : (stackDevOpt (groupMean tempRows)).Pairwise devRowLt :=
    stack_pairwise (groupMean tempRows) (devCellOpt (groupMean tempRows)) htnd
  have htkeys : ((stackDevOpt (groupMean tempRows)).map
      (fun t => (t.dayOfYear, t.year))).Nodup := by
    show ((stackDevOpt (groupMean tempRows)).map
      (fun t => (t.dayOfYear, t.year))).Pairwise (fun a b => a ≠ b)
    rw [List.pairwise_map]
    exact htemp.imp (fun h => devRowLt_keys_ne _ _ h)
  have hmerged := mergeInner_pairwise _ _ hgas htkeys
  unfold high_usage_warm_days highUsageWarmDaysWith
  exact List.Pairwise.sublist (List.filter_sublist _) hmerged

/-- A concrete gas day-of-year table: two days, two years, engineered so that
(year 2024, day 1) and (year 2023, day 2) exceed the usage threshold. -/
def cexGasRows : List (Key × ℚ) :=
  [((2023, 1), 0), ((2024, 1), 10), ((2023, 2), 10), ((2024, 2), 0)]

/-- A concrete temperature table warm at (2024, day 1) and (2023, day 2). -/
def cexTempRows : List (Key × Option ℚ) :=
  [((2023, 1), some 0), ((2024, 1), some 2), ((2023, 2), some 2), ((2024, 2), some 0)]

/-- C6 counterexample: on these inputs the flagged rows come out as
(year 2024, day 1) before (year 2023, day 2) — day-of-year-major, violating
the claimed year-ascending order. -/
theorem c6_counterexample :
    high_usage_warm_days (mergeInner (stackDev (groupSum cexGasRows))
        (stackDevOpt (groupMean cexTempRows)))
      = [⟨1, 2024, 5, 1⟩, ⟨2, 2023, 5, 1⟩] ∧
    ¬ (high_usage_warm_days (mergeInner (stackDev (groupSum cexGasRows))
        (stackDevOpt (groupMean cexTempRows)))).Pairwise
      (fun q r : MergedRow =>
        q.year < r.year ∨ (q.year = r.year ∧ q.dayOfYear < r.dayOfYear)) := by
  have hlist : high_usage_warm_days (mergeInner (stackDev (groupSum cexGasRows))
      (stackDevOpt (groupMean cexTempRows)))
      = [⟨1, 2024, 5, 1⟩, ⟨2, 2023, 5, 1⟩] := by
    with_unfolding_all rfl
  refine ⟨hlist, ?_⟩
  rw [hlist]
  intro h
  rcases List.pairwise_cons.mp h with ⟨hrel, _⟩
  have hbad := hrel _ (List.mem_singleton_self _)
  simp only [] at hbad
  rcases hbad with h1 | ⟨h2, _⟩
  · omega
  · omega

/-! ## Toolkit: left-join and permutation lemmas -/

theorem mergeLeft_cons (e : DailyRec) (l : List DailyRec) (temp : List TempRec) :
    mergeLeft (e :: l) temp =
      (match temp.filter (fun t => decide (t.date = e.date)) with
       | [] => [⟨e.date, e.usage, none⟩]
       | ms => ms.map (fun t => ⟨e.date, e.usage, some t.fields⟩)) ++ mergeLeft l temp :=
  rfl

/-- C7: aligning consumption with temperature has left-outer-join semantics
on exact date equality: with date-keyed temperature rows, every consumption
record appears exactly once and in order; a record whose date matches a
temperature row carries that row's fields; an unmatched record carries absent
temperature fields. -/
theorem c7_left_outer_join_semantics (cons : List DailyRec) (temp : List TempRec)
    (huniq : (temp.map TempRec.date).Nodup) :
    ((mergeLeft cons temp).map (fun r => (r.date, r.usage)) =
        cons.map (fun e => (e.date, e.usage))) ∧
    (∀ r ∈ mergeLeft cons temp,
        ((∀ t ∈ temp, t.date ≠ r.date) → r.temp = none) ∧
        (∀ t ∈ temp, t.date = r.date → r.temp = some t.fields)) := by
  constructor
  · induction cons with
    | nil => rfl
    | cons e l ih =>
      rw [mergeLeft_cons, List.map_append, ih, List.map_cons]
      rcases hfil : temp.filter (fun t => decide (t.date = e.date)) with _ | ⟨t, ts⟩
      · rw [hfil]
        rfl
      · have hlen : (temp.filter (fun t => decide (t.date = e.date))).length ≤ 1 :=
          length_filter_le_one_of_nodup_map TempRec.date temp huniq _ e.date
            (fun x hx => by rwa [decide_eq_true_eq] at hx)
        rw [hfil] at hlen
        cases ts with
        | nil =>
          rw [hfil]
          rfl
        | cons _ _ => simp at hlen
  · intro r hr
    rcases List.mem_flatMap.mp hr with ⟨e, he, hre⟩
    rcases hfil : temp.filter (fun t => decide (t.date = e.date)) with _ | ⟨t, ts⟩
    · rw [hfil] at hre
      cases List.mem_singleton.mp hre
      constructor
      · intro _
        rfl
      · intro t2 ht2 ht2d
        exfalso
        have hmem : t2 ∈ temp.filter (fun t => decide (t.date = e.date)) :=
          List.mem_filter.mpr ⟨ht2, by rw [decide_eq_true_eq]; exact ht2d⟩
        rw [hfil] at hmem
        exact List.not_mem_nil t2 hmem
    · rw [hfil] at hre
      rcases List.mem_map.mp hre with ⟨t', ht', rfl⟩
      have ht'fil : t' ∈ temp.filter (fun t => decide (t.date = e.date)) := by
        rw [hfil]
        exact ht'
      obtain ⟨ht'mem, ht'd⟩ := List.mem_filter.mp ht'fil
      rw [decide_eq_true_eq] at ht'd
      constructor
      · intro hno
        exact absurd (show t'.date = _ from ht'd) (hno t' ht'mem)
      · intro t2 ht2 ht2d
        have ht2e : t2 = t' :=
          List.inj_on_of_nodup_map huniq ht2 ht'mem (by rw [show t2.date = e.date from ht2d, ht'd])
        rw [ht2e]

/-- The spec §4.1 example: two consumption days, one temperature day. -/
def wCons : List DailyRec := [⟨⟨2024, 1, 1⟩, 10⟩, ⟨⟨2024, 1, 2⟩, 12⟩]

/-- One temperature row for 2024-01-01 with mean 5. -/
def wTemp : List TempRec := [⟨⟨2024, 1, 1⟩, 2, 8, 5⟩]

/-- Witness for C7 on the spec's own example: both consumption dates survive
in order. -/
theorem c7_witness :
    (mergeLeft wCons wTemp).map (fun r => (r.date, r.usage)) =
      wCons.map (fun e => (e.date, e.usage)) :=
  (c7_left_outer_join_semantics wCons wTemp (by decide)).1

theorem sortLe_keys_eq_of_perm (l1 l2 : List Key) (hp : l1.Perm l2) :
    sortLe keyLe l1 = sortLe keyLe l2 := by
  haveI : IsAntisymm Key (fun a b => keyLe a b = true) := ⟨keyLe_antisymm⟩
  exact List.eq_of_perm_of_sorted
    ((sortLe_perm keyLe l1).trans (hp.trans (sortLe_perm keyLe l2).symm))
    (sortLe_pairwise keyLe_total keyLe_trans l1)
    (sortLe_pairwise keyLe_total keyLe_trans l2)

theorem groupSum_perm_eq (l1 l2 : List (Key × ℚ)) (h : l1.Perm l2) :
    groupSum l1 = groupSum l2 := by
  unfold groupSum
  rw [sortLe_keys_eq_of_perm (keysOf l1) (keysOf l2) ((h.map Prod.fst).dedup)]
  refine List.map_congr_left ?_
  intro k _
  have hs : sumAt l1 k = sumAt l2 k := by
    unfold sumAt
    exact ((h.filter _).map _).sum_eq
  rw [hs]

theorem meanAt_perm (l1 l2 : List (Key × Option ℚ)) (h : l1.Perm l2) (k : Key) :
    meanAt l1 k = meanAt l2 k := by
  have hv : ((l1.filter (fun r => decide (r.1 = k))).filterMap Prod.snd).Perm
      ((l2.filter (fun r => decide (r.1 = k))).filterMap Prod.snd) :=
    (h.filter _).filterMap _
  have hsum := hv.sum_eq
  have hlen := hv.length_eq
  have hemp : ((l1.filter (fun r => decide (r.1 = k))).filterMap Prod.snd).isEmpty =
      ((l2.filter (fun r => decide (r.1 = k))).filterMap Prod.snd).isEmpty := by
    rcases hA : (l1.filter (fun r => decide (r.1 = k))).filterMap Prod.snd with _ | ⟨x, xs⟩
    · rw [hA] at hv
      rw [hA, List.Perm.eq_nil hv.symm]
    · rw [hA] at hv
      rcases hB : (l2.filter (fun r => decide (r.1 = k))).filterMap Prod.snd with _ | ⟨y, ys⟩
      · rw [hB] at hv
        exact absurd (List.Perm.eq_nil hv) (List.cons_ne_nil x xs)
      · rw [hA, hB]
        rfl
  show (if ((l1.filter (fun r => decide (r.1 = k))).filterMap Prod.snd).isEmpty
        then none
        else some (((l1.filter (fun r => decide (r.1 = k))).filterMap Prod.snd).sum /
          (((l1.filter (fun r => decide (r.1 = k))).filterMap Prod.snd).length : ℚ))) =
      (if ((l2.filter (fun r => decide (r.1 = k))).filterMap Prod.snd).isEmpty
        then none
        else some (((l2.filter (fun r => decide (r.1 = k))).filterMap Prod.snd).sum /
          (((l2.filter (fun r => decide (r.1 = k))).filterMap Prod.snd).length : ℚ)))
  rw [hsum, hlen, hemp]

theorem groupMean_perm_eq (l1 l2 : List (Key × Option ℚ)) (h : l1.Perm l2) :
    groupMean l1 = groupMean l2 := by
  unfold groupMean
  rw [sortLe_keys_eq_of_perm (keysOf l1) (keysOf l2) ((h.map Prod.fst).dedup)]
  refine List.map_congr_left ?_
  intro k _
  rw [meanAt_perm l1 l2 h k]

/-- C8: the aggregations, baselines and deviations are order-insensitive pure
functions: permuting the input records leaves the aggregated matrices, every
baseline value and every deviation cell identical, and recomputation from the
same matrix yields the same values. -/
theorem c8_deterministic_order_insensitive
    (l1 l2 : List (Key × ℚ)) (t1 t2 : List (Key × Option ℚ))
    (h : l1.Perm l2) (ht : t1.Perm t2) :
    groupSum l1 = groupSum l2 ∧
    groupMean t1 = groupMean t2 ∧
    (∀ d : Nat, baseline (groupSum l1) d = baseline (groupSum l2) d) ∧
    (∀ k : Key, devCell (groupSum l1) k = devCell (groupSum l2) k) ∧
    (∀ d : Nat, baselineOpt (groupMean t1) d = baselineOpt (groupMean t2) d) ∧
    (∀ k : Key, devCellOpt (groupMean t1) k = devCellOpt (groupMean t2) k) := by
  have h1 := groupSum_perm_eq l1 l2 h
  have h2 := groupMean_perm_eq t1 t2 ht
  exact ⟨h1, h2, fun d => by rw [h1], fun k => by rw [h1],
    fun d => by rw [h2], fun k => by rw [h2]⟩

/-- Witness for C8: swapping two records leaves the aggregated matrix
unchanged. -/
theorem c8_witness :
    groupSum [((2024, 1), 5), ((2023, 1), 3)] = groupSum [((2023, 1), 3), ((2024, 1), 5)] :=
  (c8_deterministic_order_insensitive
      [((2024, 1), 5), ((2023, 1), 3)] [((2023, 1), 3), ((2024, 1), 5)] [] []
      (List.Perm.swap ((2023, 1), 3) ((2024, 1), 5) []) (List.Perm.refl [])).1

end Fluvius
